import Mathlib

/-!
Verification of the request-path resolver and rendering layer of the srv
HTTP file server (src/main.go). The Go code is shallowly embedded: strings
are Lean strings viewed as lists of characters, the filesystem is a finite
map from cleaned path strings to nodes, and zip archives are flat entry
lists, mirroring the archive/zip central directory.
-/

namespace Srv

/-- Split a string at every slash, keeping empty fields, as strings.Split
with separator slash does in Go (the empty string yields one empty field). -/
def splitSlashChars : List Char → List (List Char)
  | [] => [[]]
  | '/' :: rest => [] :: splitSlashChars rest
  | c :: rest =>
    match splitSlashChars rest with
    | [] => [[c]]
    | g :: gs => (c :: g) :: gs

/-- String form of splitSlashChars. -/
def splitSlash (s : String) : List String :=
  (splitSlashChars s.data).map String.mk

/-- Decide whether the first list is an initial run of the second. -/
def leadsWith : List Char → List Char → Bool
  | [], _ => true
  | _ :: _, [] => false
  | a :: as, b :: bs => a = b && leadsWith as bs

/-- Decide whether the string s starts with pre. -/
def strLeads (pre s : String) : Bool := leadsWith pre.data s.data

/-- Decide whether the string s ends with suf. -/
def strEnds (suf s : String) : Bool := leadsWith suf.data.reverse s.data.reverse

/-- strings.TrimSuffix from the Go standard library: drop suf from the end
of s when present, otherwise return s unchanged. -/
def trimSuffix (s suf : String) : String :=
  if strEnds suf s then String.mk (s.data.take (s.data.length - suf.data.length)) else s

/-- Join a list of strings with the given separator between fields. -/
def joinSep (sep : String) : List String → String
  | [] => ""
  | [x] => x
  | x :: y :: rest => x ++ sep ++ joinSep sep (y :: rest)

/-- One step of the output stack of path.Clean: empty and dot elements
vanish, dotdot pops (or accumulates when not rooted), anything else pushes. -/
def cleanPush (rooted : Bool) (out : List String) (seg : String) : List String :=
  if seg = "" || seg = "." then out
  else if seg = ".." then
    match out with
    | [] => if rooted then [] else [".."]
    | top :: rest => if top = ".." then seg :: top :: rest else rest
  else seg :: out

/-- path.Clean from the Go standard library, by the element-stack reading of
its byte-level loop: purely lexical, removes empty, dot and (where possible)
dotdot elements, and returns dot for an empty result. -/
def goClean (p : String) : String :=
  if p = "" then "."
  else
    let rooted := strLeads "/" p
    let segs := (splitSlash p).foldl (cleanPush rooted) []
    let body := joinSep "/" segs.reverse
    if rooted then "/" ++ body
    else if body = "" then "." else body

/-- path.Join from the Go standard library: skip leading empty elements,
join the rest with slashes and Clean the result; all-empty input gives
the empty string. -/
def goJoinList (elems : List String) : String :=
  match elems.dropWhile (fun e => e = "") with
  | [] => ""
  | l => goClean (joinSep "/" l)

/-- Two-argument form of path.Join, as used throughout main.go. -/
def goJoin2 (a b : String) : String := goJoinList [a, b]

/-- path.Dir from the Go standard library: Clean of everything up to and
including the final slash (empty when there is no slash, hence dot). -/
def goDir (p : String) : String :=
  goClean (String.mk ((p.data.reverse.dropWhile (fun c => c ≠ '/')).reverse))

/-- filepath.Ext from the Go standard library: the suffix starting at the
last dot in the final path element, empty when that element has no dot. -/
def goExtAux : List Char → List Char → String
  | [], _ => ""
  | c :: rest, acc =>
    if c = '/' then ""
    else if c = '.' then String.mk ('.' :: acc)
    else goExtAux rest (c :: acc)

/-- String entry point of goExtAux, scanning from the end of the string. -/
def goExt (s : String) : String := goExtAux s.data.reverse []

/-- Value of one hexadecimal digit character, none for other characters. -/
def hexVal (c : Char) : Option Nat :=
  if 48 ≤ c.toNat && c.toNat ≤ 57 then some (c.toNat - 48)
  else if 65 ≤ c.toNat && c.toNat ≤ 70 then some (c.toNat - 55)
  else if 97 ≤ c.toNat && c.toNat ≤ 102 then some (c.toNat - 87)
  else none

/-- Percent-decoding of url.PathUnescape (and of the path decoding done by
net/url when it parses a request URI): every percent sign must be followed
by two hexadecimal digits, otherwise the whole decode fails. -/
def unescapeChars : List Char → Option (List Char)
  | [] => some []
  | '%' :: rest =>
    match rest with
    | a :: b :: rest2 =>
      match hexVal a, hexVal b with
      | some ha, some hb => (unescapeChars rest2).map (fun t => Char.ofNat (16 * ha + hb) :: t)
      | _, _ => none
    | _ => none
  | c :: rest => (unescapeChars rest).map (fun t => c :: t)

/-- String entry point of unescapeChars, modelling url.PathUnescape. -/
def goPathUnescape (s : String) : Option String :=
  (unescapeChars s.data).map String.mk

/-- Uppercase hexadecimal digit for a value below sixteen. -/
def hexUpper (n : Nat) : Char :=
  if n < 10 then Char.ofNat (48 + n) else Char.ofNat (55 + n)

/-- Characters url.PathEscape percent-encodes (Go shouldEscape in the path
segment mode): everything except alphanumerics, the marks dash underscore
dot tilde, and the reserved characters dollar ampersand plus colon equals
at-sign. -/
def pathSegEscapes (c : Char) : Bool :=
  if c.isAlphanum then false
  else if c = '-' || c = '_' || c = '.' || c = '~' then false
  else if c = '$' || c = '&' || c = '+' || c = ':' || c = '=' || c = '@' then false
  else true

/-- Encoding of one character under url.PathEscape. -/
def escapeChar (c : Char) : List Char :=
  if pathSegEscapes c then ['%', hexUpper (c.toNat / 16 % 16), hexUpper (c.toNat % 16)]
  else [c]

/-- url.PathEscape from the Go standard library, per character. -/
def pathEscape (s : String) : String :=
  String.mk (s.data.foldr (fun c acc => escapeChar c ++ acc) [])

/-- Lowercase a string character by character, as strings.ToLower does for
the ASCII names involved here. -/
def lowerStr (s : String) : String := String.mk (s.data.map Char.toLower)

/-- Content type by extension, modelling the Go mime database of a standard
system where the zip extension is registered as application/zip and no other
extension maps to that type; lookups are case-insensitive as in
mime.TypeByExtension. -/
def mimeTypeByExtension (ext : String) : String :=
  if lowerStr ext = ".zip" then "application/zip" else ""

/-- isZip from src/main.go line 34: a name is a zip archive when the content
type of its extension equals the content type of the zip extension. -/
def isZip (s : String) : Bool :=
  mimeTypeByExtension (goExt s) = mimeTypeByExtension ".zip"

/-- Kind of a directory entry as the rendering switches in main.go see it:
the directory bit set, no type bits set (a regular file), or anything else
(symlink, device, socket, pipe), which the switches reach as default. -/
inductive EntryMode where
  | dir
  | regular
  | other
deriving DecidableEq, Repr

/-- One entry of the flat central directory of a zip archive: its stored
name (directories may carry a trailing slash), the mode its header decodes
to, the uncompressed size, and the decompressed content. -/
structure ZipEntry where
  name : String
  mode : EntryMode
  size : Nat
  content : String
deriving DecidableEq, Repr

/-- One node of the served filesystem tree. A file carries its raw bytes
and, when those bytes parse as a zip archive, the parsed entry list (none
models a file the zip reader rejects). A directory carries the basenames
Readdir returns, in on-disk order. A symlink carries its target string. -/
inductive FsNode where
  | file (content : String) (zipData : Option (List ZipEntry))
  | dir (children : List String)
  | symlink (target : String)
  | other
deriving DecidableEq, Repr

/-- The filesystem, as a finite map from cleaned path strings to nodes.
Intermediate directories are listed as their own keys; symlink resolution
is modelled at the named node (the final path component), which covers
every access pattern src/main.go performs. -/
abbrev Fsys := List (String × FsNode)

/-- First binding of a path in the filesystem map; this is the lstat view,
which never follows a symlink found at the path itself. -/
def Fsys.lookup (fs : Fsys) (p : String) : Option FsNode :=
  match fs with
  | [] => none
  | (q, n) :: rest => if q = p then some n else Fsys.lookup rest p

/-- Where a symlink at linkPath pointing at target leads: an absolute
target is cleaned, a relative one is joined to the directory of the link,
as the kernel resolves readlink results. -/
def resolveTarget (linkPath target : String) : String :=
  if strLeads "/" target then goClean target else goJoin2 (goDir linkPath) target

/-- Follow symlinks from a path down to a non-symlink node, with fuel
bounding the chain length as the kernel bounds link traversals; none models
a failed open (absent entry, dangling link, or link loop). -/
def resolvePath (fs : Fsys) : Nat → String → Option FsNode
  | 0, _ => none
  | fuel + 1, p =>
    match Fsys.lookup fs p with
    | some (.symlink t) => resolvePath fs fuel (resolveTarget p t)
    | r => r

/-- Maximum symlink chain length the model follows, mirroring the kernel
bound on link traversals. -/
def resolveFuel : Nat := 40

/-- os.Open as the handler uses it: the node the path resolves to after
following symlinks, none when the open fails. -/
def osOpen (fs : Fsys) (p : String) : Option FsNode :=
  resolvePath fs resolveFuel p

/-- Bytes io.Copy obtains from an opened node: a file yields its content;
reading an opened directory fails at once (the error is discarded at the
call sites in main.go), yielding an empty body. -/
def nodeRead : FsNode → String
  | .file c _ => c
  | _ => ""

/-- zip.OpenReader from main.go line 169: open the file (following
symlinks) and parse it as a zip archive; none when the open fails, the node
is not a regular file, or the bytes do not parse as an archive. -/
def zipOpenReader (fs : Fsys) (p : String) : Option (List ZipEntry) :=
  match resolvePath fs resolveFuel p with
  | some (.file _ (some z)) => some z
  | _ => none

/-- fs.ValidPath from the Go io/fs package: dot alone, or non-empty
slash-separated elements none of which is empty, dot or dotdot. -/
def fsValidPath (n : String) : Bool :=
  n = "." || (n ≠ "" && (splitSlash n).all (fun c => c ≠ "" && c ≠ "." && c ≠ ".."))

/-- Result of fs.Stat inside an opened archive: the named path is a
directory of the virtual tree, or a concrete entry served as a file. -/
inductive ZipStatInfo where
  | dirInfo
  | fileInfo (e : ZipEntry)
deriving DecidableEq, Repr

/-- fs.Stat over the zip virtual filesystem: the root is a directory; an
exact-name entry is a directory when its header mode says so, else a file;
otherwise the name is a directory when some entry lies strictly below it
(archive/zip synthesizes implicit directories from entry name runs);
invalid fs paths and missing names give none, which fs.Stat reports as an
error. -/
def zipStat (z : List ZipEntry) (n : String) : Option ZipStatInfo :=
  if ¬ fsValidPath n then none
  else if n = "." then some .dirInfo
  else
    match z.find? (fun e => e.name = n) with
    | some e => if e.mode = .dir then some .dirInfo else some (.fileInfo e)
    | none =>
      if z.any (fun e => strLeads (n ++ "/") e.name) then some .dirInfo
      else none

/-- A directory entry as the renderers receive it: basename, the mode class
the rendering switch inspects, and the size its FileInfo reports. The size
field holds the byte count the source passes to humanize.FileSize; the text
the formatter produces is a presentation detail outside these claims. -/
structure DirEntryM where
  name : String
  mode : EntryMode
  size : Nat
deriving DecidableEq, Repr

/-- Direct child of the archive directory with prefix pre contributed by
one entry: a strict descendant whose remainder has one field is a file
child carrying the entry mode and size, a longer remainder contributes a
synthesized directory child. -/
def zipChildOf (pre : String) (e : ZipEntry) : Option DirEntryM :=
  if strLeads pre e.name && e.name ≠ pre then
    match splitSlashChars (e.name.data.drop pre.data.length) with
    | [seg] => if seg = [] then none else some ⟨String.mk seg, e.mode, e.size⟩
    | seg :: _ :: _ => if seg = [] then none else some ⟨String.mk seg, .dir, 0⟩
    | [] => none
  else none

/-- Drop later occurrences of an already seen name, keeping first ones. -/
def dedupByName (seen : List String) : List DirEntryM → List DirEntryM
  | [] => []
  | x :: xs =>
    if seen.contains x.name then dedupByName seen xs
    else x :: dedupByName (x.name :: seen) xs

/-- Insert into a list sorted by the strict comparator, before the first
element the inserted one compares below. -/
def insertBy (lt : DirEntryM → DirEntryM → Bool) (x : DirEntryM) : List DirEntryM → List DirEntryM
  | [] => [x]
  | y :: ys => if lt x y then x :: y :: ys else y :: insertBy lt x ys

/-- Insertion sort by a strict comparator; one deterministic refinement of
the unstable sort.Slice the source calls. -/
def sortBy (lt : DirEntryM → DirEntryM → Bool) : List DirEntryM → List DirEntryM
  | [] => []
  | x :: xs => insertBy lt x (sortBy lt xs)

/-- fs.ReadDir over the zip virtual filesystem: the deduplicated direct
children of the directory, sorted by name as archive/zip keeps its file
list ordered. -/
def zipReadDir (z : List ZipEntry) (p : String) : List DirEntryM :=
  let pre := if p = "." then "" else p ++ "/"
  sortBy (fun a b => decide (a.name < b.name)) (dedupByName [] (z.filterMap (zipChildOf pre)))

/-- Value of a run of decimal digit characters. -/
def runVal (r : List Char) : Nat :=
  r.foldl (fun acc c => 10 * acc + (c.toNat - 48)) 0

/-- Modelled from the spec: internal/humanize NaturalLess is part of this
repository but not under src/; section 4.4 specifies that sequences of
digits inside a name are compared as integers, not character by character,
other positions by character. Fuel bounds the recursion over digit runs. -/
def natLessAux : Nat → List Char → List Char → Bool
  | 0, _, _ => false
  | _ + 1, [], [] => false
  | _ + 1, [], _ :: _ => true
  | _ + 1, _ :: _, [] => false
  | fuel + 1, a :: as, b :: bs =>
    if a.isDigit && b.isDigit then
      let va := runVal ((a :: as).takeWhile Char.isDigit)
      let vb := runVal ((b :: bs).takeWhile Char.isDigit)
      if va ≠ vb then va < vb
      else natLessAux fuel ((a :: as).dropWhile Char.isDigit) ((b :: bs).dropWhile Char.isDigit)
    else if a ≠ b then a < b
    else natLessAux fuel as bs

/-- Modelled from the spec: string entry point of the natural comparator. -/
def naturalLess (a b : String) : Bool :=
  natLessAux (a.data.length + b.data.length + 1) a.data b.data

/-- One rendered table row. The structural fields are exactly what the
fmt.Fprintf calls of the renderers interpolate: an href attribute, the
display text, and for file rows the byte count handed to the size
formatter. -/
inductive Row where
  | downloadLink
  | link (href text : String)
  | fileLink (href text : String) (size : Nat)
  | inert (text : String)
deriving DecidableEq, Repr

/-- renderListing from src/main.go lines 38 to 75: sort the directory
entries by the case-insensitive natural comparator, then render a linked
row per directory (escaped href with trailing slash), a linked and sized
row per regular file, and an inert row for anything else. -/
def renderListing (files : List DirEntryM) : List Row :=
  let sorted := sortBy (fun a b => naturalLess (lowerStr a.name) (lowerStr b.name)) files
  sorted.map (fun fi =>
    match fi.mode with
    | .dir => Row.link (pathEscape fi.name ++ "/") (fi.name ++ "/")
    | .regular => Row.fileLink (pathEscape fi.name) fi.name fi.size
    | .other => Row.inert fi.name)

/-- renderZipFolderListing from src/main.go lines 77 to 101: for each entry
of the directory, a rooted link joining the parent path with the escaped
basename for directories and regular files (sized for the latter), and an
inert row for anything else. -/
def renderZipFolderListing (entries : List DirEntryM) (parentPath : String) : List Row :=
  entries.map (fun fi =>
    match fi.mode with
    | .dir => Row.link ("/" ++ goJoin2 parentPath (pathEscape fi.name)) fi.name
    | .regular => Row.fileLink ("/" ++ goJoin2 parentPath (pathEscape fi.name)) fi.name fi.size
    | .other => Row.inert fi.name)

/-- Row of the archive-root listing contributed by one central-directory
entry, following the switch of src/main.go lines 112 to 123: a directory
entry is rendered when its name, with a trailing slash stripped, splits
into one field; a regular file entry when its name splits into one field;
every other entry falls through the commented-out default and produces
nothing. -/
def zipRootRow (parentPath : String) (e : ZipEntry) : Option Row :=
  if e.mode = .dir ∧ (splitSlash (trimSuffix e.name "/")).length = 1 then
    some (Row.link ("/" ++ goJoin2 parentPath (pathEscape e.name)) e.name)
  else if e.mode = .regular ∧ (splitSlash e.name).length = 1 then
    some (Row.fileLink ("/" ++ goJoin2 parentPath (pathEscape e.name)) e.name e.size)
  else none

/-- renderZipListing from src/main.go lines 103 to 128: a download link
row, then the rows the central directory contributes in order. -/
def renderZipListing (z : List ZipEntry) (parentPath : String) : List Row :=
  Row.downloadLink :: z.filterMap (zipRootRow parentPath)

/-- Partition state of the segment scan of src/main.go lines 149 to 165. -/
structure Seg where
  fsPath : List String
  zipFile : String
  zipPath : List String
deriving DecidableEq, Repr

/-- One iteration of the scan loop: while no archive has been seen, a zip
segment becomes the archive and every other segment extends the filesystem
prefix; afterwards every segment extends the archive-internal path. -/
def segStep (st : Seg) (fpath : String) : Seg :=
  if st.zipFile.length = 0 then
    if isZip fpath then { st with zipFile := fpath }
    else { st with fsPath := st.fsPath ++ [fpath] }
  else { st with zipPath := st.zipPath ++ [fpath] }

/-- The whole scan over the slash-separated decoded path. -/
def segmentScan (dirs : List String) : Seg :=
  dirs.foldl segStep ⟨[], "", []⟩

/-- filepath.Abs as reached from main.go line 178: r.URL.Path of an
origin-form request always begins with a slash and percent-decoding keeps
that first byte, so the argument is already absolute and Abs reduces to
Clean (a relative argument, which would prepend the process working
directory, is unreachable here). -/
def goAbs (p : String) : String := goClean p

/-- Outcome of one GET request as it leaves the handler. httpError is an
http.Error response with its status code; content is a body streamed by
http.ServeContent or io.Copy; listing is a rendered table; fatal is the
log.Fatal call at main.go line 171, which terminates the whole process;
crashed is the nil-interface method call at main.go line 187 when fs.Stat
failed, a runtime panic that aborts the response. -/
inductive Response where
  | httpError (status : Nat) (msg : String)
  | content (body : String)
  | listing (rows : List Row)
  | fatal
  | crashed
deriving DecidableEq, Repr

/-- Entries f.Readdir returns for an opened directory: one record per
child basename, with the mode class and size of the child node seen by
lstat (absent children are skipped, as Readdir cannot return them). -/
def readdirEntries (fs : Fsys) (dirPath : String) : List DirEntryM :=
  match Fsys.lookup fs dirPath with
  | some (.dir cs) =>
    cs.filterMap (fun c =>
      match Fsys.lookup fs (goJoin2 dirPath c) with
      | some (.file content _) => some ⟨c, .regular, content.data.length⟩
      | some (.dir _) => some ⟨c, .dir, 0⟩
      | some (.symlink _) => some ⟨c, .other, 0⟩
      | some .other => some ⟨c, .other, 0⟩
      | none => none)
  | _ => []

/-- The archive path on disk computed at src/main.go line 168: the server
root joined with the filesystem prefix and the archive segment. -/
def zipFilePathOf (srvDir : String) (st : Seg) : String :=
  goJoin2 srvDir (goJoinList (st.fsPath ++ [st.zipFile]))

/-- The GET branch of the handler, src/main.go lines 138 to 250, over a
filesystem, the configured server root, r.URL.Path as net/http delivers
it, and whether the query string carries the download key. -/
def handleGet (fs : Fsys) (srvDir : String) (urlPath : String) (hasDownload : Bool) : Response :=
  match goPathUnescape urlPath with
  | none => .httpError 500 "failed to path unescape"
  | some fp =>
    let st := segmentScan (splitSlash fp)
    if st.zipFile.length > 0 then
      let zipFilePath := zipFilePathOf srvDir st
      match zipOpenReader fs zipFilePath with
      | none => .fatal
      | some z =>
        if hasDownload then
          match osOpen fs (goAbs fp) with
          | none => .httpError 500 "seeker cant seek"
          | some n => .content (nodeRead n)
        else if st.zipPath.length > 0 then
          let zipInternalPath := goJoinList st.zipPath
          match zipStat z zipInternalPath with
          | none => .crashed
          | some .dirInfo =>
            .listing (renderZipFolderListing (zipReadDir z zipInternalPath)
              (goJoin2 zipFilePath zipInternalPath))
          | some (.fileInfo e) => .content e.content
        else
          .listing (renderZipListing z zipFilePath)
    else
      let fp2 := goJoin2 srvDir fp
      match Fsys.lookup fs fp2 with
      | none => .httpError 404 "file not found"
      | some node =>
        match osOpen fs fp2 with
        | none => .httpError 500 "failed to open file"
        | some _ =>
          match node with
          | .dir _ =>
            match osOpen fs (goJoin2 fp2 "index.html") with
            | some inode => .content (nodeRead inode)
            | none => .listing (renderListing (readdirEntries fs fp2))
          | .file _ _ => .content (nodeRead node)
          | .symlink _ => .httpError 403 "file is a symlink"
          | .other => .httpError 403 "file isnt a regular file or directory"

/-- Path decoding net/url performs while parsing the request target: the
field r.URL.Path handed to the handler is the percent-decoded form of the
path on the wire (net/http rejects the request before the handler runs
when this decode fails). -/
def urlPathOfRaw (raw : String) : Option String := goPathUnescape raw

/-- The segment list main.go line 149 computes, as a function of the raw
path on the wire: net/http sets r.URL.Path to the decoded path, and
main.go line 143 applies url.PathUnescape to that already decoded field
before splitting on slashes. -/
def handlerSegments (rawPath : String) : Option (List String) :=
  match urlPathOfRaw rawPath with
  | none => none
  | some urlPath =>
    match goPathUnescape urlPath with
    | none => none
    | some fp => some (splitSlash fp)

/-- Entry list of the valid archive used in the download scenario. -/
def zC1 : List ZipEntry := [⟨"f", .regular, 1, "x"⟩]

/-- Server tree for the download scenario: the root directory data holds
one valid zip archive whose raw bytes are RAWZIP; nothing exists at the
absolute path that the handler actually opens. -/
def fsC1 : Fsys :=
  [("data", .dir ["a.zip"]), ("data/a.zip", .file "RAWZIP" (some zC1))]

/-- Server tree holding a file with the zip extension whose bytes do not
parse as an archive. -/
def fsC2 : Fsys := [("bad.zip", .file "junk" none)]

/-- Server tree holding a valid archive with a single entry named x. -/
def fsC3 : Fsys := [("a.zip", .file "raw" (some [⟨"x", .regular, 1, "y"⟩]))]

/-- Server tree whose root directory holds one dangling symlink. -/
def fsC5 : Fsys := [("root", .dir ["s"]), ("root/s", .symlink "gone")]

/-- Server tree whose root directory holds a symlink resolving to a valid
regular file inside the root. -/
def fsC5w : Fsys :=
  [("root", .dir ["s", "f"]), ("root/s", .symlink "f"), ("root/f", .file "X" none)]

/-- Archive with a top-level entry of symlink mode, a top-level regular
file, and a nested file. -/
def zC6 : List ZipEntry :=
  [⟨"s", .other, 0, ""⟩, ⟨"f", .regular, 2, "hi"⟩, ⟨"sub/g", .regular, 1, "g"⟩]

/-- Server tree for the archive-root listing scenario, with the server
root set to the directory data. -/
def fsC6 : Fsys := [("data", .dir ["a.zip"]), ("data/a.zip", .file "RAW" (some zC6))]

/-- Server tree whose directory d holds a symlink named index.html that
resolves to a regular file elsewhere in the tree. -/
def fsC8 : Fsys :=
  [("d", .dir ["index.html"]), ("d/index.html", .symlink "s.txt"),
   ("d/s.txt", .file "SECRET" none)]

/-- Server tree whose root directory holds a symlink named index.html
resolving to a regular file next to it. -/
def fsC9 : Fsys :=
  [("root", .dir ["index.html"]), ("root/index.html", .symlink "t.txt"),
   ("root/t.txt", .file "SECRET" none)]

/-- Server tree whose directory w holds a plain regular index.html. -/
def fsC8w : Fsys := [("w", .dir ["index.html"]), ("w/index.html", .file "IDX" none)]

/-- Claim C1: a download request for an archive under the server root is
claimed to answer with the raw archive bytes; on the code, with server
root data and request path slash a dot zip carrying the download flag, the
handler opens the absolute path derived from the decoded URL path instead
of the archive under the root, ServeContent fails to seek the failed open,
and the body is never the archive bytes RAWZIP. -/
theorem claim_C1_bug :
    Fsys.lookup fsC1 "data/a.zip" = some (.file "RAWZIP" (some zC1)) ∧
    handleGet fsC1 "data" "/a.zip" true = .httpError 500 "seeker cant seek" ∧
    handleGet fsC1 "data" "/a.zip" true ≠ .content "RAWZIP" := by
  decide

/-- Claim C2: an archive that cannot be parsed is claimed to produce a
per-request server error; on the code, the request for bad dot zip whose
bytes do not parse reaches the log.Fatal call at main.go line 171 and
terminates the whole serving process instead of answering the request. -/
theorem claim_C2_bug :
    Fsys.lookup fsC2 "bad.zip" = some (.file "junk" none) ∧
    handleGet fsC2 "." "/bad.zip" false = .fatal ∧
    handleGet fsC2 "." "/bad.zip" false ≠ .httpError 500 "failed to open zip" := by
  decide

/-- Claim C3: a request for an archive-internal path naming no entry is
claimed to answer 404; on the code, the stat error at main.go line 186 is
discarded, the nil FileInfo is dereferenced at line 187, and the handler
panics instead of writing a NotFound response. -/
theorem claim_C3_bug :
    handleGet fsC3 "." "/a.zip/missing" false = .crashed ∧
    handleGet fsC3 "." "/a.zip/missing" false ≠ .httpError 404 "file not found" := by
  decide

/-- Claim C4: the request path is claimed to be percent-decoded exactly
once; on the code, net/http already delivers the decoded path in r.URL.Path
and main.go line 143 decodes it again, so for the wire path holding a
double-escaped slash the handler operates on three segments where a single
decode yields two. -/
theorem claim_C4_bug :
    handlerSegments "/a%252Fb" = some ["", "a", "b"] ∧
    (goPathUnescape "/a%252Fb").map splitSlash = some ["", "a%2Fb"] ∧
    handlerSegments "/a%252Fb" ≠ (goPathUnescape "/a%252Fb").map splitSlash := by
  decide

/-- Claim C5 counterexample: the claim says a request resolving to a
symlink always answers 403 whether or not the target exists; on the code,
a dangling symlink passes the lstat but fails the open at main.go line
215, and the handler answers 500 instead of 403. -/
theorem claim_C5_cex :
    Fsys.lookup fsC5 "root/s" = some (.symlink "gone") ∧
    handleGet fsC5 "root" "/s" false = .httpError 500 "failed to open file" ∧
    handleGet fsC5 "root" "/s" false ≠ .httpError 403 "file is a symlink" := by
  decide

/-- Claim C10 counterexample: the claim says both archive listings omit an
entry that is neither a directory nor a regular file; on the code, the
archive-internal directory renderer has a live default case and renders an
inert row for such an entry. -/
theorem claim_C10_cex :
    renderZipFolderListing [⟨"lnk", .other, 0⟩] "a.zip/d" = [Row.inert "lnk"] := by
  decide

/-- Once an archive segment is held, every further segment is appended to
the archive-internal path unchanged. -/
theorem foldl_segStep_after (l : List String) (fsp : List String) (z : String)
    (zp : List String) (hz : z.length ≠ 0) :
    List.foldl segStep ⟨fsp, z, zp⟩ l = ⟨fsp, z, zp ++ l⟩ := by
  induction l generalizing zp with
  | nil => simp
  | cons d rest ih =>
    simp only [List.foldl_cons]
    have hstep : segStep ⟨fsp, z, zp⟩ d = ⟨fsp, z, zp ++ [d]⟩ := by
      simp [segStep, hz]
    rw [hstep, ih]
    simp

/-- While no archive segment has been seen and no upcoming segment is a
zip name, every segment extends the filesystem prefix. -/
theorem foldl_segStep_before (l : List String) (fsp : List String)
    (h : ∀ d ∈ l, isZip d = false) :
    List.foldl segStep ⟨fsp, "", []⟩ l = ⟨fsp ++ l, "", []⟩ := by
  induction l generalizing fsp with
  | nil => simp
  | cons d rest ih =>
    simp only [List.foldl_cons]
    have hd : isZip d = false := h d (List.mem_cons_self d rest)
    have hstep : segStep ⟨fsp, "", []⟩ d = ⟨fsp ++ [d], "", []⟩ := by
      simp [segStep, hd]
    rw [hstep, ih _ (fun x hx => h x (List.mem_cons_of_mem d hx))]
    simp

/-- Claim C7: at most one segment is classified as an archive boundary.
When position i holds the first segment whose extension maps to the zip
content type, the scan of main.go lines 149 to 165 puts the i preceding
segments in the filesystem prefix, that segment alone in the archive slot,
and every later segment, zip-named or not, literally into the
archive-internal path. -/
theorem claim_C7 (dirs : List String) (i : Nat) (hi : i < dirs.length)
    (hz : isZip (dirs.get ⟨i, hi⟩) = true)
    (hfirst : ∀ j (hj : j < dirs.length), j < i → isZip (dirs.get ⟨j, hj⟩) = false) :
    segmentScan dirs = ⟨dirs.take i, dirs.get ⟨i, hi⟩, dirs.drop (i + 1)⟩ := by
  have hget : dirs.get ⟨i, hi⟩ = dirs[i] := rfl
  have hdecomp : dirs = dirs.take i ++ dirs.get ⟨i, hi⟩ :: dirs.drop (i + 1) := by
    rw [hget]
    conv_lhs => rw [← List.take_append_drop i dirs]
    rw [List.drop_eq_getElem_cons hi]
  have htake : ∀ d ∈ dirs.take i, isZip d = false := by
    intro d hd
    obtain ⟨n, hn⟩ := List.mem_iff_get.mp hd
    have hlt : (n : Nat) < i := by
      have := n.isLt
      simp [List.length_take] at this
      omega
    have hlen : (n : Nat) < dirs.length := Nat.lt_trans hlt hi
    have : (dirs.take i).get n = dirs.get ⟨n, hlen⟩ := by
      simp [List.get_eq_getElem, List.getElem_take]
    rw [← hn, this]
    exact hfirst n hlen hlt
  have hne : (dirs.get ⟨i, hi⟩).length ≠ 0 := by
    intro h0
    have : dirs.get ⟨i, hi⟩ = "" := by
      cases hs : dirs.get ⟨i, hi⟩ with
      | mk data => rw [hs] at h0; cases data with
        | nil => rfl
        | cons a as => simp [String.length] at h0
    rw [this] at hz
    exact absurd hz (by decide)
  calc segmentScan dirs
      = List.foldl segStep ⟨[], "", []⟩ (dirs.take i ++ dirs.get ⟨i, hi⟩ :: dirs.drop (i + 1)) := by
        rw [segmentScan, ← hdecomp]
    _ = List.foldl segStep ⟨dirs.take i, "", []⟩ (dirs.get ⟨i, hi⟩ :: dirs.drop (i + 1)) := by
        rw [List.foldl_append, foldl_segStep_before _ _ htake]
        simp
    _ = List.foldl segStep ⟨dirs.take i, dirs.get ⟨i, hi⟩, []⟩ (dirs.drop (i + 1)) := by
        simp only [List.foldl_cons]
        have hz2 : isZip (dirs.get ⟨i, hi⟩) = true := hz
        have : segStep ⟨dirs.take i, "", []⟩ (dirs.get ⟨i, hi⟩) =
            ⟨dirs.take i, dirs.get ⟨i, hi⟩, []⟩ := by
          unfold segStep
          rw [if_pos (by simp [String.length])]
          rw [if_pos (by exact hget ▸ hz2)]
        rw [this]
    _ = ⟨dirs.take i, dirs.get ⟨i, hi⟩, [] ++ dirs.drop (i + 1)⟩ :=
        foldl_segStep_after _ _ _ _ hne
    _ = ⟨dirs.take i, dirs.get ⟨i, hi⟩, dirs.drop (i + 1)⟩ := by simp

/-- Concrete instance of claim C7 on a path with a second zip-named
segment, which lands literally in the archive-internal path. -/
theorem claim_C7_witness :
    segmentScan ["", "a", "b.zip", "c.zip", "d"] = ⟨["", "a"], "b.zip", ["c.zip", "d"]⟩ :=
  claim_C7 ["", "a", "b.zip", "c.zip", "d"] 2 (by decide) (by decide) (by decide)

/-- Claim C5, amended: a request whose lstat classifies the entry as a
symlink answers 403 exactly when the open that precedes the mode switch
succeeds, that is when the link target resolves to an existing node; a
symlink whose target cannot be opened answers 500 from the open failure. -/
theorem claim_C5_amended (fs : Fsys) (srvDir urlPath fp t : String) (dl : Bool)
    (hdec : goPathUnescape urlPath = some fp)
    (hscan : (segmentScan (splitSlash fp)).zipFile = "")
    (hsym : Fsys.lookup fs (goJoin2 srvDir fp) = some (.symlink t)) :
    (∀ n, osOpen fs (goJoin2 srvDir fp) = some n →
        handleGet fs srvDir urlPath dl = .httpError 403 "file is a symlink") ∧
    (osOpen fs (goJoin2 srvDir fp) = none →
        handleGet fs srvDir urlPath dl = .httpError 500 "failed to open file") := by
  have hlen : ¬ ((segmentScan (splitSlash fp)).zipFile.length > 0) := by
    rw [hscan]; decide
  constructor
  · intro n hn
    simp only [handleGet, hdec]
    rw [if_neg hlen, hsym, hn]
  · intro hn
    simp only [handleGet, hdec]
    rw [if_neg hlen, hsym, hn]

/-- Concrete instance of the amended claim C5: a symlink resolving to a
valid file inside the root is refused with 403. -/
theorem claim_C5_witness :
    handleGet fsC5w "root" "/s" false = .httpError 403 "file is a symlink" :=
  (claim_C5_amended fsC5w "root" "/s" "/s" "f" false rfl rfl rfl).1 (.file "X" none) rfl

/-- Opening a path whose lstat already found a directory succeeds and
returns that directory, since a directory node is not a symlink. -/
theorem osOpen_of_lookup_dir (fs : Fsys) (p : String) (cs : List String)
    (h : Fsys.lookup fs p = some (.dir cs)) : osOpen fs p = some (.dir cs) := by
  unfold osOpen resolveFuel
  rw [show (40 : Nat) = 39 + 1 from rfl]
  unfold resolvePath
  rw [h]

/-- Resolution of a directory request: when the open of index.html inside
the directory succeeds its bytes are copied, otherwise the directory
listing is rendered; shared backbone for the claims about index.html. -/
theorem handleGet_dir_resolution (fs : Fsys) (srvDir urlPath fp : String)
    (cs : List String) (dl : Bool)
    (hdec : goPathUnescape urlPath = some fp)
    (hscan : (segmentScan (splitSlash fp)).zipFile = "")
    (hdir : Fsys.lookup fs (goJoin2 srvDir fp) = some (.dir cs)) :
    (∀ n, osOpen fs (goJoin2 (goJoin2 srvDir fp) "index.html") = some n →
        handleGet fs srvDir urlPath dl = .content (nodeRead n)) ∧
    (osOpen fs (goJoin2 (goJoin2 srvDir fp) "index.html") = none →
        handleGet fs srvDir urlPath dl =
          .listing (renderListing (readdirEntries fs (goJoin2 srvDir fp)))) := by
  have hlen : ¬ ((segmentScan (splitSlash fp)).zipFile.length > 0) := by
    rw [hscan]; decide
  have hop : osOpen fs (goJoin2 srvDir fp) = some (.dir cs) :=
    osOpen_of_lookup_dir fs _ cs hdir
  constructor
  · intro n hn
    simp only [handleGet, hdec]
    rw [if_neg hlen, hdir, hop, hn]
  · intro hn
    simp only [handleGet, hdec]
    rw [if_neg hlen, hdir, hop, hn]

/-- Claim C8 counterexample: the claim says that without a file named
index.html directly inside the directory a generated listing is served; on
the code, the directory d holds only a symlink named index.html, and the
handler serves the bytes of the symlink target instead of the listing. -/
theorem claim_C8_cex :
    Fsys.lookup fsC8 "d/index.html" = some (.symlink "s.txt") ∧
    handleGet fsC8 "." "/d" false = .content "SECRET" ∧
    handleGet fsC8 "." "/d" false ≠ .listing (renderListing (readdirEntries fsC8 "d")) := by
  decide

/-- Claim C8, amended: for a directory request, when opening index.html
directly inside the directory succeeds, following symlinks, the opened
bytes are served; only when that open fails is a generated listing
served. -/
theorem claim_C8_amended (fs : Fsys) (srvDir urlPath fp : String)
    (cs : List String) (dl : Bool)
    (hdec : goPathUnescape urlPath = some fp)
    (hscan : (segmentScan (splitSlash fp)).zipFile = "")
    (hdir : Fsys.lookup fs (goJoin2 srvDir fp) = some (.dir cs)) :
    (∀ n, osOpen fs (goJoin2 (goJoin2 srvDir fp) "index.html") = some n →
        handleGet fs srvDir urlPath dl = .content (nodeRead n)) ∧
    (osOpen fs (goJoin2 (goJoin2 srvDir fp) "index.html") = none →
        handleGet fs srvDir urlPath dl =
          .listing (renderListing (readdirEntries fs (goJoin2 srvDir fp)))) :=
  handleGet_dir_resolution fs srvDir urlPath fp cs dl hdec hscan hdir

/-- Concrete instance of the amended claim C8: a regular index.html is
served verbatim in place of the listing. -/
theorem claim_C8_witness :
    handleGet fsC8w "." "/w" false = .content (nodeRead (.file "IDX" none)) :=
  (claim_C8_amended fsC8w "." "/w" "/w" ["index.html"] false rfl rfl rfl).1
    (.file "IDX" none) rfl

/-- Claim C9: when the entry named index.html inside a requested directory
is a symlink whose target opens as a regular file, the handler serves the
target bytes; the symlink refusal applies only to the entry the request
path itself names, not to the implicitly opened index.html. -/
theorem claim_C9 (fs : Fsys) (srvDir urlPath fp t c : String) (cs : List String)
    (zd : Option (List ZipEntry)) (dl : Bool)
    (hdec : goPathUnescape urlPath = some fp)
    (hscan : (segmentScan (splitSlash fp)).zipFile = "")
    (hdir : Fsys.lookup fs (goJoin2 srvDir fp) = some (.dir cs))
    (hlink : Fsys.lookup fs (goJoin2 (goJoin2 srvDir fp) "index.html") = some (.symlink t))
    (hopen : osOpen fs (goJoin2 (goJoin2 srvDir fp) "index.html") = some (.file c zd)) :
    handleGet fs srvDir urlPath dl = .content c :=
  (handleGet_dir_resolution fs srvDir urlPath fp cs dl hdec hscan hdir).1 (.file c zd) hopen

/-- Concrete instance of claim C9: the symlinked index.html is followed
and the target bytes are served for a GET of the directory. -/
theorem claim_C9_witness :
    handleGet fsC9 "root" "/" false = .content "SECRET" :=
  claim_C9 fsC9 "root" "/" "/" "t.txt" "SECRET" ["index.html"] none false
    rfl rfl rfl rfl rfl

/-- Characterization of the rows one central-directory entry contributes
to the archive-root listing. -/
theorem zipRootRow_eq_some (pp : String) (e : ZipEntry) (r : Row) :
    zipRootRow pp e = some r ↔
      ((e.mode = .dir ∧ (splitSlash (trimSuffix e.name "/")).length = 1 ∧
          r = Row.link ("/" ++ goJoin2 pp (pathEscape e.name)) e.name) ∨
       (e.mode = .regular ∧ (splitSlash e.name).length = 1 ∧
          r = Row.fileLink ("/" ++ goJoin2 pp (pathEscape e.name)) e.name e.size)) := by
  unfold zipRootRow
  split_ifs with h1 h2
  · obtain ⟨hm, hl⟩ := h1
    simp [hm, hl, eq_comm]
  · obtain ⟨hm, hl⟩ := h2
    simp [hm, hl, eq_comm]
  · constructor
    · intro h
      simp at h
    · rintro (⟨hm, hl, _⟩ | ⟨hm, hl, _⟩)
      · exact absurd ⟨hm, hl⟩ h1
      · exact absurd ⟨hm, hl⟩ h2

/-- Membership in the archive-root listing: the download row, or a row
contributed by some entry of the central directory. -/
theorem mem_renderZipListing (z : List ZipEntry) (pp : String) (r : Row) :
    r ∈ renderZipListing z pp ↔ r = Row.downloadLink ∨ ∃ e ∈ z, zipRootRow pp e = some r := by
  simp [renderZipListing, List.mem_filterMap]

/-- An entry that is neither a directory nor a regular file contributes no
row to the archive-root listing. -/
theorem zipRootRow_other (pp : String) (e : ZipEntry) (h : e.mode = .other) :
    zipRootRow pp e = none := by
  simp [zipRootRow, h]

/-- Removing the entries of other mode from the central directory leaves
the archive-root listing unchanged: they are silently omitted. -/
theorem renderZipListing_filter_other (z : List ZipEntry) (pp : String) :
    renderZipListing (z.filter (fun e => e.mode ≠ EntryMode.other)) pp =
      renderZipListing z pp := by
  unfold renderZipListing
  congr 1
  induction z with
  | nil => rfl
  | cons e rest ih =>
    by_cases h : e.mode = .other
    · simp only [List.filter_cons]
      rw [if_neg (by simp [h])]
      rw [List.filterMap_cons, zipRootRow_other pp e h, ih]
    · simp only [List.filter_cons]
      rw [if_pos (by simp [h])]
      rw [List.filterMap_cons, List.filterMap_cons, ih]

/-- Membership is preserved by ordered insertion. -/
theorem mem_insertBy (lt : DirEntryM → DirEntryM → Bool) (x y : DirEntryM)
    (l : List DirEntryM) :
    y ∈ insertBy lt x l ↔ y = x ∨ y ∈ l := by
  induction l with
  | nil => simp [insertBy]
  | cons a as ih =>
    unfold insertBy
    by_cases h : lt x a
    · simp [h]
    · simp only [h]
      simp only [Bool.false_eq_true, if_false, List.mem_cons, ih]
      tauto

/-- Sorting permutes and hence preserves membership. -/
theorem mem_sortBy (lt : DirEntryM → DirEntryM → Bool) (y : DirEntryM)
    (l : List DirEntryM) :
    y ∈ sortBy lt l ↔ y ∈ l := by
  induction l with
  | nil => simp [sortBy]
  | cons a as ih => simp [sortBy, mem_insertBy, ih]

/-- Claim C6, amended: the archive-root listing consists of the download
row plus exactly those top-level entries of the flat central directory, a
directory entry whose name with a trailing separator stripped has no
further separator, or a regular-file entry whose name has no separator,
each linked under the slash-prefixed join of the on-disk archive path,
that is the server root joined with the request prefix and archive name,
with the escaped entry name; entries of any other kind contribute no row,
and the links carry the server root, coinciding with the archive-relative
form only when the root joins away. -/
theorem claim_C6_amended (fs : Fsys) (srvDir urlPath fp : String) (z : List ZipEntry)
    (hdec : goPathUnescape urlPath = some fp)
    (hzf : (segmentScan (splitSlash fp)).zipFile.length > 0)
    (hzp : (segmentScan (splitSlash fp)).zipPath = [])
    (hopen : zipOpenReader fs (zipFilePathOf srvDir (segmentScan (splitSlash fp))) = some z) :
    handleGet fs srvDir urlPath false =
      .listing (renderZipListing z (zipFilePathOf srvDir (segmentScan (splitSlash fp)))) ∧
    (∀ r, r ∈ renderZipListing z (zipFilePathOf srvDir (segmentScan (splitSlash fp))) ↔
      (r = Row.downloadLink ∨
       ∃ e ∈ z,
         ((e.mode = .dir ∧ (splitSlash (trimSuffix e.name "/")).length = 1 ∧
             r = Row.link
               ("/" ++ goJoin2 (zipFilePathOf srvDir (segmentScan (splitSlash fp)))
                 (pathEscape e.name)) e.name) ∨
          (e.mode = .regular ∧ (splitSlash e.name).length = 1 ∧
             r = Row.fileLink
               ("/" ++ goJoin2 (zipFilePathOf srvDir (segmentScan (splitSlash fp)))
                 (pathEscape e.name)) e.name e.size)))) := by
  constructor
  · simp only [handleGet, hdec]
    rw [if_pos hzf, hopen]
    simp [hzp]
  · intro r
    simp only [mem_renderZipListing, zipRootRow_eq_some]

/-- Claim C6 counterexample: the archive zC6 has a top-level entry s of
symlink mode and a top-level file f, and the server root is the directory
data; the rendered listing omits s entirely and links f under the
root-qualified path, not under the archive-relative path the claim
states. -/
theorem claim_C6_cex :
    Fsys.lookup fsC6 "data/a.zip" = some (.file "RAW" (some zC6)) ∧
    handleGet fsC6 "data" "/a.zip" false =
      .listing [Row.downloadLink, Row.fileLink "/data/a.zip/f" "f" 2] ∧
    Row.inert "s" ∉ [Row.downloadLink, Row.fileLink "/data/a.zip/f" "f" 2] ∧
    Row.link "/data/a.zip/s" "s" ∉ [Row.downloadLink, Row.fileLink "/data/a.zip/f" "f" 2] ∧
    Row.fileLink "/a.zip/f" "f" 2 ∉ [Row.downloadLink, Row.fileLink "/data/a.zip/f" "f" 2] := by
  decide

/-- Concrete instance of the amended claim C6 at the archive zC6. -/
theorem claim_C6_witness :
    handleGet fsC6 "data" "/a.zip" false =
      .listing (renderZipListing zC6 (zipFilePathOf "data" (segmentScan (splitSlash "/a.zip")))) :=
  (claim_C6_amended fsC6 "data" "/a.zip" "/a.zip" zC6 rfl (by decide) rfl rfl).1

/-- Claim C10, amended: in the archive-root listing an entry that is
neither a directory nor a regular file is silently omitted, the listing is
unchanged when such entries are removed beforehand; in the archive-internal
directory listing and in the filesystem directory listing such an entry is
rendered as an inert, non-linked row. -/
theorem claim_C10_amended :
    (∀ (z : List ZipEntry) (pp : String),
        renderZipListing (z.filter (fun e => e.mode ≠ EntryMode.other)) pp =
          renderZipListing z pp) ∧
    (∀ (entries : List DirEntryM) (pp : String) (fi : DirEntryM),
        fi ∈ entries → fi.mode = .other →
          Row.inert fi.name ∈ renderZipFolderListing entries pp) ∧
    (∀ (files : List DirEntryM) (fi : DirEntryM),
        fi ∈ files → fi.mode = .other → Row.inert fi.name ∈ renderListing files) := by
  refine ⟨fun z pp => renderZipListing_filter_other z pp, ?_, ?_⟩
  · intro entries pp fi hmem hmode
    unfold renderZipFolderListing
    have himg :
        (fun fi : DirEntryM =>
          match fi.mode with
          | .dir => Row.link ("/" ++ goJoin2 pp (pathEscape fi.name)) fi.name
          | .regular => Row.fileLink ("/" ++ goJoin2 pp (pathEscape fi.name)) fi.name fi.size
          | .other => Row.inert fi.name) fi = Row.inert fi.name := by
      simp [hmode]
    rw [← himg]
    exact List.mem_map_of_mem _ hmem
  · intro files fi hmem hmode
    unfold renderListing
    have hsorted : fi ∈ sortBy (fun a b => naturalLess (lowerStr a.name) (lowerStr b.name)) files :=
      (mem_sortBy _ fi files).mpr hmem
    have himg :
        (fun fi : DirEntryM =>
          match fi.mode with
          | .dir => Row.link (pathEscape fi.name ++ "/") (fi.name ++ "/")
          | .regular => Row.fileLink (pathEscape fi.name) fi.name fi.size
          | .other => Row.inert fi.name) fi = Row.inert fi.name := by
      simp [hmode]
    rw [← himg]
    exact List.mem_map_of_mem _ hsorted

/-- Concrete instance of the amended claim C10 on one-entry listings of
each of the three kinds. -/
theorem claim_C10_witness :
    renderZipListing ([⟨"s", EntryMode.other, 0, ""⟩].filter (fun e => e.mode ≠ EntryMode.other))
        "a.zip" = renderZipListing [⟨"s", EntryMode.other, 0, ""⟩] "a.zip" ∧
    Row.inert "lnk" ∈ renderZipFolderListing [⟨"lnk", EntryMode.other, 0⟩] "a.zip/d" ∧
    Row.inert "lnk" ∈ renderListing [⟨"lnk", EntryMode.other, 0⟩] :=
  ⟨claim_C10_amended.1 [⟨"s", EntryMode.other, 0, ""⟩] "a.zip",
   claim_C10_amended.2.1 [⟨"lnk", EntryMode.other, 0⟩] "a.zip/d" ⟨"lnk", EntryMode.other, 0⟩
     (by decide) rfl,
   claim_C10_amended.2.2 [⟨"lnk", EntryMode.other, 0⟩] ⟨"lnk", EntryMode.other, 0⟩
     (by decide) rfl⟩

end Srv
